import Mathlib

/-!
Verification of the computational-geometry core of the diamond_poc viewer.

The development shallowly embeds the source in Lean 4:
* `src/src/ClipPlane.js` — per-triangle plane intersection (`collectPts`,
  `dedup3`, `triangleSegment`, `getIntersectionContour`), contour–plane
  intersection (`getContourPlaneIntersection`) and segment stitching
  (`stitchSegments` with its scan-pass loop).
* `src/unnamed/part_001` — the `Utils` angle helpers (`angleToEqualizeZ`,
  `angleZToEqualizeX`, `animateRotation`) and the `App` alignment flow
  (`handleApply`, the phase-1 effect and the phase-2 closure).

JavaScript numbers are modelled by `ℚ` (exact arithmetic; a float comparison
`a.distanceTo(b) < tol` with `tol > 0` is modelled by the equivalent
squared-distance comparison `dist2 a b < tol ^ 2`, avoiding square roots).
`Math.atan2` is modelled by the argument of a complex number, a real.
Fallible or throwing code returns `Option` / `Except`.
-/

/-- A 3D point/vector with exact rational coordinates (models `THREE.Vector3`). -/
structure Vec3 where
  x : ℚ
  y : ℚ
  z : ℚ
deriving DecidableEq

/-- Squared Euclidean distance; `a.distanceTo(b) < tol` (for `tol > 0`) is
modelled as `dist2 a b < tol ^ 2`. -/
def dist2 (a b : Vec3) : ℚ :=
  (a.x - b.x) ^ 2 + (a.y - b.y) ^ 2 + (a.z - b.z) ^ 2

/-- Dot product of two vectors. -/
def dot (a b : Vec3) : ℚ :=
  a.x * b.x + a.y * b.y + a.z * b.z

/-- Vector difference `a - b`. -/
def vsub (a b : Vec3) : Vec3 :=
  ⟨a.x - b.x, a.y - b.y, a.z - b.z⟩

/-- Vector sum `a + b`. -/
def vadd (a b : Vec3) : Vec3 :=
  ⟨a.x + b.x, a.y + b.y, a.z + b.z⟩

/-- Scalar multiple `t • a`. -/
def vsmul (t : ℚ) (a : Vec3) : Vec3 :=
  ⟨t * a.x, t * a.y, t * a.z⟩

/-- A plane in point-normal form (models `THREE.Plane`: `normal` and signed
offset `constant`). -/
structure Plane where
  normal : Vec3
  constant : ℚ
deriving DecidableEq

/-- Signed distance of a point to a plane (`THREE.Plane.distanceToPoint`):
`normal ⋅ v + constant`. -/
def distanceToPoint (p : Plane) (v : Vec3) : ℚ :=
  dot p.normal v + p.constant

/-- Exact line-segment/plane intersection, the model of
`THREE.Plane.intersectLine(line, target)`: if the segment direction is
perpendicular to the normal the line is parallel — it intersects (at its
start) only when the start lies exactly on the plane; otherwise the crossing
parameter `t` must lie in `[0, 1]`. -/
def intersectLine (p : Plane) (s e : Vec3) : Option Vec3 :=
  let direction := vsub e s
  let denominator := dot p.normal direction
  if denominator = 0 then
    if distanceToPoint p s = 0 then some s else none
  else
    let t := -(dot s p.normal + p.constant) / denominator
    if t < 0 ∨ t > 1 then none
    else some (vadd s (vsmul t direction))

/-- An intersection segment: ordered pair of points (models the
`{start, end}` objects pushed into `contourSegments` in `ClipPlane.js`). -/
structure Segment where
  start : Vec3
  endp : Vec3
deriving DecidableEq

/-- A triangle, by its three vertices (in the mesh's local frame). -/
structure Triangle where
  a : Vec3
  b : Vec3
  c : Vec3
deriving DecidableEq

/-- Raw intersection points of a triangle's three edges with the (local)
plane, in edge order `(a,b), (b,c), (c,a)` — `ClipPlane.js` lines 33-47. -/
def collectPts (p : Plane) (t : Triangle) : List Vec3 :=
  [(t.a, t.b), (t.b, t.c), (t.c, t.a)].filterMap fun e => intersectLine p e.1 e.2

/-- Three-point deduplication of `ClipPlane.js` lines 50-56: when all three
edges reported a point, drop `points[1]` if `points[0]` and `points[1]` are
within `1e-5`, else drop `points[2]` if `points[1]` and `points[2]` are within
`1e-5`, else drop `points[0]` (unconditionally). Lists of other lengths are
returned unchanged. -/
def dedup3 (pts : List Vec3) : List Vec3 :=
  match pts with
  | [p0, p1, p2] =>
    if dist2 p0 p1 < (1 / 100000 : ℚ) ^ 2 then [p0, p2]
    else if dist2 p1 p2 < (1 / 100000 : ℚ) ^ 2 then [p0, p1]
    else [p1, p2]
  | l => l

/-- The segment a single triangle contributes (`ClipPlane.js` lines 30-65):
collect the edge intersections, deduplicate a triple, and emit a segment
exactly when 2 points remain, mapped to world space by `w` (the model of
`applyMatrix4(mesh.matrixWorld)`). -/
def triangleSegment (w : Vec3 → Vec3) (p : Plane) (t : Triangle) : Option Segment :=
  match dedup3 (collectPts p t) with
  | [q0, q1] => some ⟨w q0, w q1⟩
  | _ => none

/-- Two points coincide within the stitching tolerance
(`samePoint` in `ClipPlane.stitchSegments`): `a.distanceTo(b) < tolerance`. -/
def samePoint (tol : ℚ) (a b : Vec3) : Prop :=
  dist2 a b < tol ^ 2

instance (tol : ℚ) (a b : Vec3) : Decidable (samePoint tol a b) :=
  inferInstanceAs (Decidable (dist2 a b < tol ^ 2))

/-- One attempt to attach an unused segment to the growing polyline, in the
source's test order (`ClipPlane.js` lines 116-145): append at the end with the
segment forward, append reversed, prepend reversed, prepend forward. -/
def tryConnect (tol : ℚ) (poly : List Vec3) (g : Segment) : Option (List Vec3) :=
  match poly.getLast?, poly.head? with
  | some lastP, some headP =>
    if samePoint tol lastP g.start then some (poly ++ [g.endp])
    else if samePoint tol lastP g.endp then some (poly ++ [g.start])
    else if samePoint tol headP g.endp then some (g.start :: poly)
    else if samePoint tol headP g.start then some (g.endp :: poly)
    else none
  | _, _ => none

/-- One full scan over the segment array (the body of the `while (extended)`
loop, `ClipPlane.js` lines 112-146): each still-unused segment is tried
against the current polyline in array order; a successful connection marks it
used, updates the polyline and sets the extension flag. -/
def scanPass (tol : ℚ) : List (Segment × Bool) → List Vec3 →
    List (Segment × Bool) × List Vec3 × Bool
  | [], poly => ([], poly, false)
  | (g, true) :: rest, poly =>
    let r := scanPass tol rest poly
    ((g, true) :: r.1, r.2.1, r.2.2)
  | (g, false) :: rest, poly =>
    match tryConnect tol poly g with
    | some poly1 =>
      let r := scanPass tol rest poly1
      ((g, true) :: r.1, r.2.1, true)
    | none =>
      let r := scanPass tol rest poly
      ((g, false) :: r.1, r.2.1, r.2.2)

/-- The `while (extended)` loop: repeat full scans until a pass produces no
extension. A pass that extends consumes at least one unused segment, so
`unused + 1` passes always suffice; the fuel argument is set accordingly by
the callers (its adequacy is proved in the C9 theorem). -/
def extendLoop (tol : ℚ) : Nat → List (Segment × Bool) → List Vec3 →
    List (Segment × Bool) × List Vec3
  | 0, segs, poly => (segs, poly)
  | fuel + 1, segs, poly =>
    let r := scanPass tol segs poly
    if r.2.2 then extendLoop tol fuel r.1 r.2.1 else (r.1, r.2.1)

/-- Find the first unused segment (the seed of the next polyline) and mark it
used, keeping every other flag; models the `if (used[i]) continue` outer-loop
step of `ClipPlane.js` lines 104-109. -/
def findSeed : List (Segment × Bool) → Option (Segment × List (Segment × Bool))
  | [] => none
  | (g, true) :: rest =>
    match findSeed rest with
    | some (s, rest1) => some (s, (g, true) :: rest1)
    | none => none
  | (g, false) :: rest => some (g, (g, true) :: rest)

/-- The outer loop of `stitchSegments`: seed a polyline from the first unused
segment, grow it to fixpoint, emit it, and repeat. Each iteration consumes at
least the seed, so `segments.length` iterations suffice. -/
def stitchAll (tol : ℚ) : Nat → List (Segment × Bool) → List (List Vec3)
  | 0, _ => []
  | fuel + 1, segs =>
    match findSeed segs with
    | none => []
    | some (g, segs1) =>
      let r := extendLoop tol (segs1.length + 1) segs1 [g.start, g.endp]
      r.2 :: stitchAll tol fuel r.1

/-- `ClipPlane.stitchSegments(segments, tolerance)` (`ClipPlane.js` lines
94-151); the source's default tolerance is `1e-6` and is passed explicitly at
the call site in `getIntersectionContour`. -/
def stitchSegments (segments : List Segment) (tolerance : ℚ) : List (List Vec3) :=
  stitchAll tolerance segments.length (segments.map fun g => (g, false))

/-- `ClipPlane.getIntersectionContour` (`ClipPlane.js` lines 5-69) at the
level of the candidate triangle list: every triangle contributes its segment
(the BVH `shapecast` only prunes triangles whose bounds the local plane
misses, and those contribute no segment anyway), the segments are stitched
with the default `1e-6` tolerance, and the source returns `stichedContour[0]`
— which is JavaScript `undefined` when no polyline exists, modelled as
`Option.none` via `List.head?`. -/
def getIntersectionContour (w : Vec3 → Vec3) (p : Plane) (tris : List Triangle) :
    Option (List Vec3) :=
  (stitchSegments (tris.filterMap (triangleSegment w p)) (1 / 1000000)).head?

/-- The straddle condition of `ClipPlane.getContourPlaneIntersection`
(`ClipPlane.js` lines 82-85): the two signed distances have opposite sign,
zero counting as both signs. -/
def straddles (p : Plane) (a b : Vec3) : Prop :=
  (0 ≤ distanceToPoint p a ∧ distanceToPoint p b ≤ 0) ∨
    (distanceToPoint p a ≤ 0 ∧ 0 ≤ distanceToPoint p b)

instance (p : Plane) (a b : Vec3) : Decidable (straddles p a b) :=
  inferInstanceAs (Decidable (_ ∨ _))

/-- `ClipPlane.getContourPlaneIntersection(contourPoints, secondPlane)`
(`ClipPlane.js` lines 70-93): walk consecutive point pairs; on a straddling
edge compute the exact crossing and append it. -/
def getContourPlaneIntersection (p : Plane) : List Vec3 → List Vec3
  | a :: b :: rest =>
    if straddles p a b then
      match intersectLine p a b with
      | some q => q :: getContourPlaneIntersection p (b :: rest)
      | none => getContourPlaneIntersection p (b :: rest)
    else getContourPlaneIntersection p (b :: rest)
  | _ => []

/-- The contour-then-landmark pipeline of `App.handleApply` (part_001 lines
285-292) under JavaScript semantics: when `getIntersectionContour` returns
`undefined` (no segment was extracted), `getContourPlaneIntersection` reads
`contourPoints.length` of `undefined` and throws a `TypeError`. -/
def contourPipeline (w : Vec3 → Vec3) (p1 p2 : Plane) (tris : List Triangle) :
    Except String (List Vec3) :=
  match getIntersectionContour w p1 tris with
  | none => Except.error "TypeError"
  | some contour => Except.ok (getContourPlaneIntersection p2 contour)

/-- Exact model of `Math.atan2 y x`: the argument of the complex number
`x + y·i`, in `(-π, π]`. -/
noncomputable def atan2 (y x : ℝ) : ℝ :=
  Complex.arg ⟨x, y⟩

/-- `Utils.angleToEqualizeZ(p1, p2)` (part_001 lines 555-562):
`Math.atan2(z2 - z1, y1 - y2)`. -/
noncomputable def angleToEqualizeZ (p1 p2 : Vec3) : ℝ :=
  atan2 ((p2.z - p1.z : ℚ) : ℝ) ((p1.y - p2.y : ℚ) : ℝ)

/-- `Utils.angleZToEqualizeX(p1, p2)` (part_001 lines 563-570):
`Math.atan2(x1 - x2, y1 - y2)`. -/
noncomputable def angleZToEqualizeX (p1 p2 : Vec3) : ℝ :=
  atan2 ((p1.x - p2.x : ℚ) : ℝ) ((p1.y - p2.y : ℚ) : ℝ)

/-- Rotation about the x-axis given the cosine and sine of the angle, the
model of `Vector3.applyAxisAngle(new THREE.Vector3(1, 0, 0), angle)`:
`(x, y, z) ↦ (x, c·y - s·z, s·y + c·z)`. -/
def rotateX (c s : ℚ) (v : Vec3) : Vec3 :=
  ⟨v.x, c * v.y - s * v.z, s * v.y + c * v.z⟩

/-- The landmark points as seen by the phase-2 closure (part_001 lines
328-335). The phase-1 callback does `updatedPoints = [...points]` — a shallow
copy holding the same `Vector3` objects — and then `applyAxisAngle` mutates
those objects in place, so the `points[0]`, `points[1]` read by the
`setTimeout` closure 1000 ms later are the rotated vectors, not the original
coordinates. `c` and `s` are the cosine and sine of the phase-1 angle. -/
def phase2Points (p1 p2 : Vec3) (c s : ℚ) : Vec3 × Vec3 :=
  (rotateX c s p1, rotateX c s p2)

/-- The phase-2 angle actually computed by the `setTimeout` closure
(part_001 line 333): `Utils.angleZToEqualizeX` applied to the mutated
(phase-1-rotated) points. -/
noncomputable def phase2Angle (p1 p2 : Vec3) (c s : ℚ) : ℝ :=
  angleZToEqualizeX (phase2Points p1 p2 c s).1 (phase2Points p1 p2 c s).2

/-- The state set by `App.handleApply` (part_001 lines 293-320) as a function
of the two contour–plane intersection attempts (mesh A's contour under P1
intersected with P2, and the symmetric retry): if the first attempt is empty
the retry's result is stored, otherwise the first result is stored; in both
branches `setAligned(true)` is called. Returns `(aligned, points)`. -/
def handleApply (attempt1 attempt2 : List Vec3) : Bool × List Vec3 :=
  if attempt1.length = 0 then (true, attempt2) else (true, attempt1)

/-- The phase-1 effect body (part_001 lines 324-337) under JavaScript
semantics, returning the `atan2` argument pair `(z2 - z1, y1 - y2)` of the
phase-1 angle it computes. The guard is `if (!points || !aligned) return;`:
`points === undefined` or `aligned` falsy returns early, but an empty array
is truthy in JavaScript, so `points = []` passes the guard and
`Utils.angleToEqualizeZ(points[0], points[1])` then reads `.y` of
`undefined`, throwing a `TypeError`. -/
def phase1Effect (aligned : Bool) (points : Option (List Vec3)) :
    Except String (Option (ℚ × ℚ)) :=
  match points, aligned with
  | none, _ => Except.ok none
  | some _, false => Except.ok none
  | some ps, true =>
    match ps.get? 0, ps.get? 1 with
    | some p1, some p2 => Except.ok (some (p2.z - p1.z, p1.y - p2.y))
    | _, _ => Except.error "TypeError"

/-- Observable events of one `Utils.animateRotation` call, tagged with the
time (in seconds from the call) at which they occur. -/
inductive AnimEvent where
  | tweenStart : AnimEvent
  | tweenComplete : AnimEvent
  | callbackFired : AnimEvent
deriving DecidableEq

/-- Timed event trace of `Utils.animateRotation(object, angle, axis,
callback)` (part_001 lines 538-554): `gsap.to` is non-blocking and schedules
a tween of fixed `duration: 1` second (start at `t = 0`, completion at
`t = 1`); the function then calls `callback()` synchronously — at `t = 0` —
whenever it is non-null. No `onComplete` handler is wired to the tween. -/
def animateRotation (hasCallback : Bool) : List (ℚ × AnimEvent) :=
  [(0, AnimEvent.tweenStart), (1, AnimEvent.tweenComplete)] ++
    (if hasCallback then [(0, AnimEvent.callbackFired)] else [])

/-- Helper: the argument of the complex number `-1 + i` is `3π/4`. -/
theorem arg_neg_one_one : Complex.arg ⟨-1, 1⟩ = 3 * Real.pi / 4 := by
  set θ : ℝ := 3 * Real.pi / 4 with hθ
  have hc : Real.cos θ = -(Real.sqrt 2 / 2) := by
    have h : θ = Real.pi - Real.pi / 4 := by rw [hθ]; ring
    rw [h, Real.cos_pi_sub, Real.cos_pi_div_four]
  have hs : Real.sin θ = Real.sqrt 2 / 2 := by
    have h : θ = Real.pi - Real.pi / 4 := by rw [hθ]; ring
    rw [h, Real.sin_pi_sub, Real.sin_pi_div_four]
  have h2 : Real.sqrt 2 * (Real.sqrt 2 / 2) = 1 := by
    rw [← mul_div_assoc, Real.mul_self_sqrt (by norm_num : (0:ℝ) ≤ 2)]
    norm_num
  have key : (⟨-1, 1⟩ : ℂ) =
      (Real.sqrt 2 : ℝ) * (Complex.cos (θ : ℝ) + Complex.sin (θ : ℝ) * Complex.I) := by
    rw [← Complex.ofReal_cos, ← Complex.ofReal_sin, hc, hs]
    apply Complex.ext <;> simp <;> nlinarith [h2]
  rw [key, Complex.arg_real_mul _ (by positivity : (0:ℝ) < Real.sqrt 2),
    Complex.arg_cos_add_sin_mul_I ⟨by nlinarith [Real.pi_pos], by nlinarith [Real.pi_pos]⟩]

/-- C7: `Utils.angleToEqualizeZ(p1, p2)` equals
`atan2 (p2.z - p1.z) (p1.y - p2.y)` exactly (depth = z, height = y), and in
particular at `p1 = (0,0,0)`, `p2 = (0,1,1)` it equals `atan2 1 (-1) = 3π/4`
— an exact formula reproduction, not an approximation. -/
theorem angleToEqualizeZ_exact :
    (∀ p1 p2 : Vec3, angleToEqualizeZ p1 p2 =
      atan2 ((p2.z - p1.z : ℚ) : ℝ) ((p1.y - p2.y : ℚ) : ℝ)) ∧
    angleToEqualizeZ ⟨0, 0, 0⟩ ⟨0, 1, 1⟩ = 3 * Real.pi / 4 := by
  refine ⟨fun p1 p2 => rfl, ?_⟩
  have h : angleToEqualizeZ ⟨0, 0, 0⟩ ⟨0, 1, 1⟩ = atan2 ((1 : ℚ) : ℝ) ((-1 : ℚ) : ℝ) := by
    unfold angleToEqualizeZ
    norm_num
  rw [h]
  unfold atan2
  have h1 : ((1 : ℚ) : ℝ) = (1 : ℝ) := by norm_num
  have h2 : ((-1 : ℚ) : ℝ) = (-1 : ℝ) := by norm_num
  rw [h1, h2]
  exact arg_neg_one_one

/-- C3 counterexample: in the trace of `Utils.animateRotation` with a
non-null callback, the callback fires at time 0 while the tween completes at
time 1, so the callback is NOT invoked "only after the rotation interpolation
over the fixed 1-second duration has finished". -/
theorem animateRotation_callback_before_complete :
    ((0 : ℚ), AnimEvent.callbackFired) ∈ animateRotation true ∧
    ((1 : ℚ), AnimEvent.tweenComplete) ∈ animateRotation true ∧
    ¬ (∀ tc ∈ animateRotation true, tc.2 = AnimEvent.callbackFired →
        ∀ tt ∈ animateRotation true, tt.2 = AnimEvent.tweenComplete → tt.1 ≤ tc.1) := by
  refine ⟨by simp [animateRotation], by simp [animateRotation], ?_⟩
  intro h
  have h01 := h (0, AnimEvent.callbackFired) (by simp [animateRotation]) rfl
    (1, AnimEvent.tweenComplete) (by simp [animateRotation]) rfl
  norm_num at h01

/-- C3 amended: for every call of `animateRotation` with a non-null callback,
the completion callback is invoked exactly once (and never when the callback
is null), but synchronously at call time `t = 0`, strictly before the fixed
1-second interpolation completes at `t = 1` — not after it. -/
theorem animateRotation_callback_once_immediate :
    (animateRotation true).countP (fun tc => tc.2 == AnimEvent.callbackFired) = 1 ∧
    (animateRotation false).countP (fun tc => tc.2 == AnimEvent.callbackFired) = 0 ∧
    (∀ tc ∈ animateRotation true, tc.2 = AnimEvent.callbackFired → tc.1 = 0) ∧
    ((1 : ℚ), AnimEvent.tweenComplete) ∈ animateRotation true ∧ (0 : ℚ) < 1 := by
  refine ⟨by simp [animateRotation], by simp [animateRotation], ?_,
    by simp [animateRotation], by norm_num⟩
  intro tc htc hcb
  simp only [animateRotation, List.mem_append, List.mem_cons, if_true,
    List.not_mem_nil, or_false, List.mem_singleton] at htc
  rcases htc with (h | h) | h <;> subst h <;> simp_all

/-- Witness for the amended C3 theorem: the concrete callback event of a
call with a callback occurs at time 0. -/
theorem animateRotation_callback_once_immediate_witness :
    ((0 : ℚ), AnimEvent.callbackFired) ∈ animateRotation true ∧
    ((0 : ℚ), AnimEvent.callbackFired).1 = 0 :=
  ⟨by simp [animateRotation],
    animateRotation_callback_once_immediate.2.2.1 _ (by simp [animateRotation]) rfl⟩

/-- C5: evaluation at the failing input. When both contour–plane attempts
yield zero points, `App.handleApply` still sets `aligned = true` and stores
the empty point list (no "unavailable" report exists in the code), and the
phase-1 effect applied to that state throws a TypeError (an empty array
passes the `!points` guard and `points[0]` is `undefined`) instead of leaving
the flow gracefully. -/
theorem handleApply_bothEmpty_crashes :
    handleApply [] [] = (true, []) ∧
    phase1Effect (handleApply [] []).1 (some (handleApply [] []).2) =
      Except.error "TypeError" ∧
    phase1Effect true none = Except.ok none :=
  ⟨rfl, rfl, rfl⟩

/-- Helper: the dot product is commutative. -/
theorem dot_comm (a b : Vec3) : dot a b = dot b a := by
  unfold dot; ring

/-- Helper: the intersection denominator is the difference of the two signed
distances. -/
theorem denom_eq_dist_sub (p : Plane) (s e : Vec3) :
    dot p.normal (vsub e s) = distanceToPoint p e - distanceToPoint p s := by
  simp only [dot, vsub, distanceToPoint]
  ring

/-- Helper: an edge whose two endpoints lie strictly on the positive side of
the plane reports no intersection. -/
theorem intersectLine_none_of_pos (p : Plane) (s e : Vec3)
    (hs : 0 < distanceToPoint p s) (he : 0 < distanceToPoint p e) :
    intersectLine p s e = none := by
  unfold intersectLine
  dsimp only
  by_cases hd : dot p.normal (vsub e s) = 0
  · rw [if_pos hd, if_neg (ne_of_gt hs)]
  · rw [if_neg hd, if_pos ?_]
    have hnum : -(dot s p.normal + p.constant) = -distanceToPoint p s := by
      rw [distanceToPoint, dot_comm]
    rw [hnum, denom_eq_dist_sub]
    rcases lt_trichotomy (distanceToPoint p e) (distanceToPoint p s) with hlt | heq | hgt
    · right
      rw [gt_iff_lt, lt_div_iff_of_neg (by linarith)]
      linarith
    · exfalso
      rw [denom_eq_dist_sub, heq, sub_self] at hd
      exact hd rfl
    · left
      rw [div_neg_iff]
      right
      constructor <;> linarith

/-- Helper: a triangle strictly on the positive side of the plane contributes
no segment. -/
theorem triangleSegment_none_of_pos (w : Vec3 → Vec3) (p : Plane) (t : Triangle)
    (ha : 0 < distanceToPoint p t.a) (hb : 0 < distanceToPoint p t.b)
    (hc : 0 < distanceToPoint p t.c) :
    triangleSegment w p t = none := by
  unfold triangleSegment collectPts
  rw [List.filterMap]
  simp only [intersectLine_none_of_pos p t.a t.b ha hb,
    intersectLine_none_of_pos p t.b t.c hb hc,
    intersectLine_none_of_pos p t.c t.a hc ha, List.filterMap_cons_none,
    List.filterMap_nil]
  rfl

/-- C6: when the plane misses the mesh (every candidate triangle lies
strictly on one side), the extractor's segment set is empty — but the
pipeline does NOT treat this as a normal "nothing to cut" outcome: the
source returns `stichedContour[0]`, which is `undefined` for an empty stitch
result, and `getContourPlaneIntersection` applied to it throws a TypeError
reading `contourPoints.length`. The claim's no-crash part fails. -/
theorem contour_miss_pipeline_throws (w : Vec3 → Vec3) (p1 p2 : Plane)
    (tris : List Triangle)
    (h : ∀ t ∈ tris, 0 < distanceToPoint p1 t.a ∧ 0 < distanceToPoint p1 t.b ∧
      0 < distanceToPoint p1 t.c) :
    tris.filterMap (triangleSegment w p1) = [] ∧
    getIntersectionContour w p1 tris = none ∧
    contourPipeline w p1 p2 tris = Except.error "TypeError" := by
  have hseg : tris.filterMap (triangleSegment w p1) = [] := by
    induction tris with
    | nil => rfl
    | cons t rest ih =>
      have ht := h t (by simp)
      rw [List.filterMap_cons,
        triangleSegment_none_of_pos w p1 t ht.1 ht.2.1 ht.2.2]
      exact ih fun t' ht' => h t' (by simp [ht'])
  have hcont : getIntersectionContour w p1 tris = none := by
    unfold getIntersectionContour
    rw [hseg]
    rfl
  refine ⟨hseg, hcont, ?_⟩
  unfold contourPipeline
  rw [hcont]

/-- Witness for C6 at a concrete missed mesh: one triangle at height
`z = 1`, plane `z = 0`. -/
theorem contour_miss_pipeline_throws_witness :
    (∀ t ∈ [(⟨⟨0, 0, 1⟩, ⟨1, 0, 1⟩, ⟨0, 1, 1⟩⟩ : Triangle)],
      0 < distanceToPoint ⟨⟨0, 0, 1⟩, 0⟩ t.a ∧
      0 < distanceToPoint ⟨⟨0, 0, 1⟩, 0⟩ t.b ∧
      0 < distanceToPoint ⟨⟨0, 0, 1⟩, 0⟩ t.c) ∧
    contourPipeline id ⟨⟨0, 0, 1⟩, 0⟩ ⟨⟨1, 0, 0⟩, 0⟩
      [(⟨⟨0, 0, 1⟩, ⟨1, 0, 1⟩, ⟨0, 1, 1⟩⟩ : Triangle)] = Except.error "TypeError" := by
  have hs : ∀ t ∈ [(⟨⟨0, 0, 1⟩, ⟨1, 0, 1⟩, ⟨0, 1, 1⟩⟩ : Triangle)],
      0 < distanceToPoint ⟨⟨0, 0, 1⟩, 0⟩ t.a ∧
      0 < distanceToPoint ⟨⟨0, 0, 1⟩, 0⟩ t.b ∧
      0 < distanceToPoint ⟨⟨0, 0, 1⟩, 0⟩ t.c := by
    intro t ht
    simp only [List.mem_singleton] at ht
    subst ht
    norm_num [distanceToPoint, dot]
  exact ⟨hs, (contour_miss_pipeline_throws id ⟨⟨0, 0, 1⟩, 0⟩ ⟨⟨1, 0, 0⟩, 0⟩ _ hs).2.2⟩

/-- Helper: the modulus of the complex number `4 + 3i` is 5. -/
theorem abs_four_three : Complex.abs ⟨4, 3⟩ = 5 := by
  rw [Complex.abs_apply, Complex.normSq_mk,
    show (4 : ℝ) * 4 + 3 * 3 = 5 ^ 2 by norm_num]
  exact Real.sqrt_sq (by norm_num)

/-- C4 counterexample: with landmark points `p1 = (0,4,0)`, `p2 = (1,0,3)`,
the phase-1 angle `atan2(3, 4)` has cosine `4/5` and sine `3/5`. The angle
the phase-2 `setTimeout` closure computes — on the `Vector3`s mutated in
place by the phase-1 `applyAxisAngle` — is `atan2(-1, 5)`, which differs
from `atan2(-1, 4)`, the value of `atan2(x1-x2, y1-y2)` on the original
pre-Phase-1 coordinates. The claim that Phase 2 uses the original
coordinates fails. -/
theorem phase2Angle_not_from_original :
    Real.cos (angleToEqualizeZ ⟨0, 4, 0⟩ ⟨1, 0, 3⟩) = 4 / 5 ∧
    Real.sin (angleToEqualizeZ ⟨0, 4, 0⟩ ⟨1, 0, 3⟩) = 3 / 5 ∧
    phase2Angle ⟨0, 4, 0⟩ ⟨1, 0, 3⟩ (4 / 5) (3 / 5) ≠
      angleZToEqualizeX ⟨0, 4, 0⟩ ⟨1, 0, 3⟩ := by
  have hne : (⟨4, 3⟩ : ℂ) ≠ 0 := by
    simp [Complex.ext_iff]
  have h1 : angleToEqualizeZ ⟨0, 4, 0⟩ ⟨1, 0, 3⟩ = Complex.arg ⟨4, 3⟩ := by
    unfold angleToEqualizeZ atan2
    norm_num
  have h2 : phase2Angle ⟨0, 4, 0⟩ ⟨1, 0, 3⟩ (4 / 5) (3 / 5) = Complex.arg ⟨5, -1⟩ := by
    unfold phase2Angle phase2Points angleZToEqualizeX atan2 rotateX
    norm_num
  have h3 : angleZToEqualizeX ⟨0, 4, 0⟩ ⟨1, 0, 3⟩ = Complex.arg ⟨4, -1⟩ := by
    unfold angleZToEqualizeX atan2
    norm_num
  refine ⟨?_, ?_, ?_⟩
  · rw [h1, Complex.cos_arg hne, abs_four_three]
  · rw [h1, Complex.sin_arg, abs_four_three]
  · rw [h2, h3]
    intro h
    have htan := congrArg Real.tan h
    rw [Complex.tan_arg, Complex.tan_arg] at htan
    norm_num at htan

/-- C4 amended: the Phase-2 angle is `atan2(lateral₁-lateral₂,
height₁'-height₂')` evaluated on the landmark points AFTER the Phase-1
rotation has been applied to them — the phase-1 callback mutates the stored
`Vector3`s in place, so the phase-2 closure reads the rotated coordinates.
The x-axis rotation leaves the lateral (x) difference unchanged, but the
height difference used is the rotated one `(c·y - s·z)`, not the original. -/
theorem phase2Angle_from_rotated (p1 p2 : Vec3) (c s : ℚ) :
    phase2Angle p1 p2 c s =
      atan2 ((p1.x - p2.x : ℚ) : ℝ)
        (((c * p1.y - s * p1.z) - (c * p2.y - s * p2.z) : ℚ) : ℝ) ∧
    (phase2Points p1 p2 c s).1.x - (phase2Points p1 p2 c s).2.x = p1.x - p2.x := by
  exact ⟨rfl, rfl⟩
/-- Helper: `dedup3` on a three-point list, as an if-chain. -/
theorem dedup3_three (p0 p1 p2 : Vec3) : dedup3 [p0, p1, p2] =
    if dist2 p0 p1 < (1 / 100000 : ℚ) ^ 2 then [p0, p2]
    else if dist2 p1 p2 < (1 / 100000 : ℚ) ^ 2 then [p0, p1] else [p1, p2] := rfl

/-- C2 counterexample: a triangle lying entirely in the plane `z = 0`
collects its three vertices (each coplanar edge reports its start point), no
two of which are within the `1e-5` tolerance of each other — yet the code
still discards a point (the first one). The discarded point `(0,0,0)` is NOT
"the collected point nearest to another collected point within the 1e-5
distance tolerance": no collected point is within tolerance of any other. -/
theorem dedup3_discards_without_tolerance :
    collectPts ⟨⟨0, 0, 1⟩, 0⟩ ⟨⟨0, 0, 0⟩, ⟨1, 0, 0⟩, ⟨0, 1, 0⟩⟩ =
      [⟨0, 0, 0⟩, ⟨1, 0, 0⟩, ⟨0, 1, 0⟩] ∧
    triangleSegment id ⟨⟨0, 0, 1⟩, 0⟩ ⟨⟨0, 0, 0⟩, ⟨1, 0, 0⟩, ⟨0, 1, 0⟩⟩ =
      some ⟨⟨1, 0, 0⟩, ⟨0, 1, 0⟩⟩ ∧
    ¬ dist2 ⟨0, 0, 0⟩ ⟨1, 0, 0⟩ < (1 / 100000 : ℚ) ^ 2 ∧
    ¬ dist2 ⟨0, 0, 0⟩ ⟨0, 1, 0⟩ < (1 / 100000 : ℚ) ^ 2 ∧
    ¬ dist2 ⟨1, 0, 0⟩ ⟨0, 1, 0⟩ < (1 / 100000 : ℚ) ^ 2 := by
  have hcol : collectPts ⟨⟨0, 0, 1⟩, 0⟩ ⟨⟨0, 0, 0⟩, ⟨1, 0, 0⟩, ⟨0, 1, 0⟩⟩ =
      [⟨0, 0, 0⟩, ⟨1, 0, 0⟩, ⟨0, 1, 0⟩] := by
    norm_num [collectPts, intersectLine, vsub, dot, distanceToPoint, vadd, vsmul,
      List.filterMap_cons]
  refine ⟨hcol, ?_, by norm_num [dist2], by norm_num [dist2], by norm_num [dist2]⟩
  unfold triangleSegment
  rw [hcol, dedup3_three]
  norm_num [dist2]

/-- C2 amended: when all three edges of a triangle report a plane
intersection, the code always reduces to exactly 2 points and emits one
segment; the discarded point is `points[1]` when `points[0]` and `points[1]`
are within `1e-5`, else `points[2]` when `points[1]` and `points[2]` are
within `1e-5`, else `points[0]` unconditionally — the discarded point need
not be within tolerance of any other collected point. A triangle contributes
a segment exactly when 2 points remain after deduplication, never from fewer
or more. -/
theorem triangle_dedup_exactly_two (w : Vec3 → Vec3) (p : Plane) (t : Triangle)
    (p0 p1 p2 : Vec3) (h : collectPts p t = [p0, p1, p2]) :
    (dedup3 (collectPts p t)).length = 2 ∧
    (∃ q0 q1, dedup3 (collectPts p t) = [q0, q1] ∧
      triangleSegment w p t = some ⟨w q0, w q1⟩ ∧
      q0 ∈ collectPts p t ∧ q1 ∈ collectPts p t) ∧
    (dist2 p0 p1 < (1 / 100000 : ℚ) ^ 2 → dedup3 (collectPts p t) = [p0, p2]) ∧
    (¬ dist2 p0 p1 < (1 / 100000 : ℚ) ^ 2 → dist2 p1 p2 < (1 / 100000 : ℚ) ^ 2 →
      dedup3 (collectPts p t) = [p0, p1]) ∧
    (¬ dist2 p0 p1 < (1 / 100000 : ℚ) ^ 2 → ¬ dist2 p1 p2 < (1 / 100000 : ℚ) ^ 2 →
      dedup3 (collectPts p t) = [p1, p2]) ∧
    (∀ t' : Triangle, (triangleSegment w p t').isSome = true ↔
      (dedup3 (collectPts p t')).length = 2) := by
  have hsome : ∀ t' : Triangle, (triangleSegment w p t').isSome = true ↔
      (dedup3 (collectPts p t')).length = 2 := by
    intro t'
    unfold triangleSegment
    rcases hdd : dedup3 (collectPts p t') with _ | ⟨q0, _ | ⟨q1, _ | ⟨q2, rest⟩⟩⟩ <;>
      simp [hdd]
  have hseg : ∀ l : List Vec3, dedup3 (collectPts p t) = l →
      triangleSegment w p t =
        (match l with
          | [q0, q1] => some (⟨w q0, w q1⟩ : Segment)
          | _ => none) := by
    intro l hl
    unfold triangleSegment
    rw [hl]
  by_cases h01 : dist2 p0 p1 < (1 / 100000 : ℚ) ^ 2
  · have hd : dedup3 (collectPts p t) = [p0, p2] := by
      rw [h, dedup3_three, if_pos h01]
    refine ⟨by rw [hd]; rfl, ⟨p0, p2, hd, ?_, ?_, ?_⟩, fun _ => hd,
      fun hn _ => absurd h01 hn, fun hn _ => absurd h01 hn, hsome⟩
    · exact hseg [p0, p2] hd
    · rw [h]; simp
    · rw [h]; simp
  · by_cases h12 : dist2 p1 p2 < (1 / 100000 : ℚ) ^ 2
    · have hd : dedup3 (collectPts p t) = [p0, p1] := by
        rw [h, dedup3_three, if_neg h01, if_pos h12]
      refine ⟨by rw [hd]; rfl, ⟨p0, p1, hd, ?_, ?_, ?_⟩, fun hc => absurd hc h01,
        fun _ _ => hd, fun _ hn => absurd h12 hn, hsome⟩
      · exact hseg [p0, p1] hd
      · rw [h]; simp
      · rw [h]; simp
    · have hd : dedup3 (collectPts p t) = [p1, p2] := by
        rw [h, dedup3_three, if_neg h01, if_neg h12]
      refine ⟨by rw [hd]; rfl, ⟨p1, p2, hd, ?_, ?_, ?_⟩, fun hc => absurd hc h01,
        fun _ hc => absurd hc h12, fun _ _ => hd, hsome⟩
      · exact hseg [p1, p2] hd
      · rw [h]; simp
      · rw [h]; simp

/-- Witness for the amended C2 theorem at the fully coplanar triangle. -/
theorem triangle_dedup_exactly_two_witness :
    collectPts ⟨⟨0, 0, 1⟩, 0⟩ ⟨⟨0, 0, 0⟩, ⟨1, 0, 0⟩, ⟨0, 1, 0⟩⟩ =
      [⟨0, 0, 0⟩, ⟨1, 0, 0⟩, ⟨0, 1, 0⟩] ∧
    (dedup3 (collectPts ⟨⟨0, 0, 1⟩, 0⟩ ⟨⟨0, 0, 0⟩, ⟨1, 0, 0⟩, ⟨0, 1, 0⟩⟩)).length = 2 := by
  have h : collectPts ⟨⟨0, 0, 1⟩, 0⟩ ⟨⟨0, 0, 0⟩, ⟨1, 0, 0⟩, ⟨0, 1, 0⟩⟩ =
      [⟨0, 0, 0⟩, ⟨1, 0, 0⟩, ⟨0, 1, 0⟩] := by
    norm_num [collectPts, intersectLine, vsub, dot, distanceToPoint, vadd, vsmul,
      List.filterMap_cons]
  exact ⟨h, (triangle_dedup_exactly_two id _ _ _ _ _ h).1⟩

/-- Consecutive point pairs of a polyline, in traversal order. -/
def consecPairs : List Vec3 → List (Vec3 × Vec3)
  | a :: b :: rest => (a, b) :: consecPairs (b :: rest)
  | _ => []

/-- Helper: under the straddle condition the exact line–plane crossing always
exists (`intersectLine` returns a point). -/
theorem intersectLine_isSome_of_straddles (p : Plane) (a b : Vec3)
    (hstr : straddles p a b) : (intersectLine p a b).isSome = true := by
  unfold intersectLine
  dsimp only
  by_cases hd : dot p.normal (vsub b a) = 0
  · rw [if_pos hd]
    have heq : distanceToPoint p b = distanceToPoint p a := by
      have h0 := denom_eq_dist_sub p a b
      rw [hd] at h0
      linarith
    have ha0 : distanceToPoint p a = 0 := by
      rcases hstr with ⟨h1, h2⟩ | ⟨h1, h2⟩ <;> rw [heq] at h2 <;> linarith
    rw [if_pos ha0]
    rfl
  · rw [if_neg hd]
    have hda : -(dot a p.normal + p.constant) = -distanceToPoint p a := by
      rw [distanceToPoint, dot_comm]
    have hdenom : dot p.normal (vsub b a) =
        distanceToPoint p b - distanceToPoint p a := denom_eq_dist_sub p a b
    rw [if_neg ?_]
    · rfl
    push_neg
    rw [hda, hdenom]
    set da := distanceToPoint p a
    set db := distanceToPoint p b
    have hne : db - da ≠ 0 := by rw [← hdenom]; exact hd
    rcases hstr with ⟨h1, h2⟩ | ⟨h1, h2⟩
    · have hneq : db ≠ da := by
        intro heq
        exact hne (by rw [heq, sub_self])
      have hpos : 0 < da - db := sub_pos.mpr (lt_of_le_of_ne (le_trans h2 h1) hneq)
      have hrw : -da / (db - da) = da / (da - db) := by
        rw [show db - da = -(da - db) by ring, div_neg, neg_div, neg_neg]
      rw [hrw]
      constructor
      · exact div_nonneg h1 (le_of_lt hpos)
      · rw [div_le_one hpos]
        linarith
    · have hneq : da ≠ db := by
        intro heq
        exact hne (by rw [heq, sub_self])
      have hpos : 0 < db - da := sub_pos.mpr (lt_of_le_of_ne (le_trans h1 h2) hneq)
      constructor
      · exact div_nonneg (by linarith) (le_of_lt hpos)
      · rw [div_le_one hpos]
        linarith

/-- C8: `getContourPlaneIntersection` emits, for each consecutive point pair
in traversal order, exactly the crossings of edges whose endpoint signed
distances differ in sign (zero counting as both signs); under that condition
the exact crossing always exists; no deduplication is applied — a polyline
vertex lying exactly on the plane is reported twice via its two adjacent
edges — and an empty result is a normal outcome (e.g. for a polyline
entirely on one side). -/
theorem getContourPlaneIntersection_spec :
    (∀ (p : Plane) (pts : List Vec3), getContourPlaneIntersection p pts =
      (consecPairs pts).filterMap fun ab =>
        if straddles p ab.1 ab.2 then intersectLine p ab.1 ab.2 else none) ∧
    (∀ (p : Plane) (a b : Vec3), straddles p a b →
      (intersectLine p a b).isSome = true) ∧
    getContourPlaneIntersection ⟨⟨0, 0, 1⟩, 0⟩ [⟨0, 0, 1⟩, ⟨0, 0, 0⟩, ⟨0, 0, -1⟩] =
      [⟨0, 0, 0⟩, ⟨0, 0, 0⟩] ∧
    getContourPlaneIntersection ⟨⟨0, 0, 1⟩, 0⟩ [⟨0, 0, 1⟩, ⟨1, 0, 1⟩] = [] := by
  refine ⟨?_, intersectLine_isSome_of_straddles, ?_, ?_⟩
  · intro p pts
    induction pts with
    | nil => rfl
    | cons a rest ih =>
      cases rest with
      | nil => rfl
      | cons b rest2 =>
        show getContourPlaneIntersection p (a :: b :: rest2) = _
        unfold getContourPlaneIntersection
        rw [show consecPairs (a :: b :: rest2) = (a, b) :: consecPairs (b :: rest2)
          from rfl, List.filterMap_cons]
        by_cases hstr : straddles p a b
        · rw [if_pos hstr, if_pos hstr]
          cases hint : intersectLine p a b with
          | none => exact ih
          | some q => rw [ih]
        · rw [if_neg hstr, if_neg hstr]
          exact ih
  · norm_num [getContourPlaneIntersection, straddles, intersectLine,
      distanceToPoint, dot, vsub, vadd, vsmul]
  · norm_num [getContourPlaneIntersection, straddles, intersectLine,
      distanceToPoint, dot, vsub, vadd, vsmul]

/-- Witness for C8 at a concrete straddling edge: the crossing exists. -/
theorem getContourPlaneIntersection_spec_witness :
    straddles ⟨⟨0, 0, 1⟩, 0⟩ ⟨0, 0, 1⟩ ⟨0, 0, -1⟩ ∧
    (intersectLine ⟨⟨0, 0, 1⟩, 0⟩ ⟨0, 0, 1⟩ ⟨0, 0, -1⟩).isSome = true := by
  have hstr : straddles ⟨⟨0, 0, 1⟩, 0⟩ ⟨0, 0, 1⟩ ⟨0, 0, -1⟩ := by
    norm_num [straddles, distanceToPoint, dot]
  exact ⟨hstr, getContourPlaneIntersection_spec.2.1 _ _ _ hstr⟩

/-- Number of not-yet-used segments in the flagged array. -/
def unusedCount (segs : List (Segment × Bool)) : Nat :=
  (segs.filter fun gb => !gb.2).length

/-- Unordered consecutive-point pairs of a polyline. -/
def chainPairs : List Vec3 → List (Sym2 Vec3)
  | a :: b :: rest => Sym2.mk (a, b) :: chainPairs (b :: rest)
  | _ => []

/-- Consecutive pairs of a polyline, as a multiset. -/
def chainPairsM (l : List Vec3) : Multiset (Sym2 Vec3) :=
  (chainPairs l : List (Sym2 Vec3))

/-- All consecutive pairs of a list of polylines, as a multiset. -/
def outEdges (polys : List (List Vec3)) : Multiset (Sym2 Vec3) :=
  (polys.map chainPairsM).sum

/-- The unordered endpoint pairs of the unused segments of a flagged array. -/
def unusedEdges (segs : List (Segment × Bool)) : Multiset (Sym2 Vec3) :=
  ((segs.filter fun gb => !gb.2).map fun gb => Sym2.mk (gb.1.start, gb.1.endp) :
    List (Sym2 Vec3))

/-- The unordered endpoint pairs of a segment list, as a multiset. -/
def segEdges (l : List Segment) : Multiset (Sym2 Vec3) :=
  (l.map fun g => Sym2.mk (g.start, g.endp) : List (Sym2 Vec3))

/-- All segment endpoints of a list, in order. -/
def endpointsOf : List Segment → List Vec3
  | [] => []
  | g :: rest => g.start :: g.endp :: endpointsOf rest

/-- Endpoint coincidences within tolerance are exact coincidences: whenever
two endpoints of the input segment list are within the stitching tolerance
they are equal. Under this hypothesis every `samePoint` hit during stitching
is an exact equality. -/
def exactEndpoints (l : List Segment) (tol : ℚ) : Prop :=
  ∀ u ∈ endpointsOf l, ∀ v ∈ endpointsOf l, samePoint tol u v → u = v

/-- Two polyline collections are the same set of polylines, counting a
polyline and its reversal as the same. -/
def sameSetUpToRev (A B : List (List Vec3)) : Prop :=
  (∀ p ∈ A, ∃ q ∈ B, p = q ∨ p = q.reverse) ∧
    (∀ q ∈ B, ∃ p ∈ A, q = p ∨ q = p.reverse)

/-- Helper: a successful connection grows the polyline by exactly one point. -/
theorem tryConnect_length (tol : ℚ) (poly : List Vec3) (g : Segment)
    (poly1 : List Vec3) (h : tryConnect tol poly g = some poly1) :
    poly1.length = poly.length + 1 := by
  unfold tryConnect at h
  rcases hl : poly.getLast? with _ | lastP <;> rcases hh : poly.head? with _ | headP <;>
    rw [hl, hh] at h
  · exact absurd h (by simp)
  · exact absurd h (by simp)
  · exact absurd h (by simp)
  · dsimp only at h
    split_ifs at h <;> injection h with h1 <;> rw [← h1] <;> simp

/-- Helper: every point of a connected polyline is an old polyline point or
an endpoint of the consumed segment. -/
theorem tryConnect_points (tol : ℚ) (poly : List Vec3) (g : Segment)
    (poly1 : List Vec3) (h : tryConnect tol poly g = some poly1) :
    ∀ x ∈ poly1, x ∈ poly ∨ x = g.start ∨ x = g.endp := by
  unfold tryConnect at h
  rcases hl : poly.getLast? with _ | lastP <;> rcases hh : poly.head? with _ | headP <;>
    rw [hl, hh] at h
  · exact absurd h (by simp)
  · exact absurd h (by simp)
  · exact absurd h (by simp)
  · dsimp only at h
    split_ifs at h <;> injection h with h1 <;> rw [← h1] <;> intro x hx <;>
      simp at hx <;> tauto

/-- Helper: a successful connection keeps the polyline nonempty. -/
theorem tryConnect_ne_nil (tol : ℚ) (poly : List Vec3) (g : Segment)
    (poly1 : List Vec3) (h : tryConnect tol poly g = some poly1) : poly1 ≠ [] := by
  intro hnil
  have := tryConnect_length tol poly g poly1 h
  rw [hnil] at this
  simp at this
/-- Helper: unfolding equation of scanPass on an already-used cell. -/
theorem scanPass_used (tol : ℚ) (g : Segment) (rest : List (Segment × Bool))
    (poly : List Vec3) :
    scanPass tol ((g, true) :: rest) poly =
      ((g, true) :: (scanPass tol rest poly).1, (scanPass tol rest poly).2.1,
        (scanPass tol rest poly).2.2) := rfl

/-- Helper: unfolding equation of scanPass on an unused cell. -/
theorem scanPass_unused_eq (tol : ℚ) (g : Segment) (rest : List (Segment × Bool))
    (poly : List Vec3) :
    scanPass tol ((g, false) :: rest) poly =
      match tryConnect tol poly g with
      | some poly1 => ((g, true) :: (scanPass tol rest poly1).1,
          (scanPass tol rest poly1).2.1, true)
      | none => ((g, false) :: (scanPass tol rest poly).1,
          (scanPass tol rest poly).2.1, (scanPass tol rest poly).2.2) := rfl

/-- Helper: scan of an unused cell that connects. -/
theorem scanPass_unused_some (tol : ℚ) (g : Segment) (rest : List (Segment × Bool))
    (poly poly1 : List Vec3) (h : tryConnect tol poly g = some poly1) :
    scanPass tol ((g, false) :: rest) poly =
      ((g, true) :: (scanPass tol rest poly1).1, (scanPass tol rest poly1).2.1,
        true) := by
  rw [scanPass_unused_eq, h]

/-- Helper: scan of an unused cell that does not connect. -/
theorem scanPass_unused_none (tol : ℚ) (g : Segment) (rest : List (Segment × Bool))
    (poly : List Vec3) (h : tryConnect tol poly g = none) :
    scanPass tol ((g, false) :: rest) poly =
      ((g, false) :: (scanPass tol rest poly).1, (scanPass tol rest poly).2.1,
        (scanPass tol rest poly).2.2) := by
  rw [scanPass_unused_eq, h]

/-- Helper: unusedCount ignores a used head cell. -/
theorem unusedCount_cons_true (g : Segment) (rest : List (Segment × Bool)) :
    unusedCount ((g, true) :: rest) = unusedCount rest := by
  unfold unusedCount
  simp [List.filter_cons]

/-- Helper: unusedCount counts an unused head cell. -/
theorem unusedCount_cons_false (g : Segment) (rest : List (Segment × Bool)) :
    unusedCount ((g, false) :: rest) = unusedCount rest + 1 := by
  unfold unusedCount
  simp [List.filter_cons]

/-- Helper: scanPass preserves the underlying segment sequence. -/
theorem scanPass_map_fst (tol : ℚ) (segs : List (Segment × Bool)) (poly : List Vec3) :
    (scanPass tol segs poly).1.map Prod.fst = segs.map Prod.fst := by
  induction segs generalizing poly with
  | nil => rfl
  | cons gb rest ih =>
    obtain ⟨g, b⟩ := gb
    cases b with
    | true => rw [scanPass_used]; simp [ih]
    | false =>
      cases htc : tryConnect tol poly g with
      | some poly1 => rw [scanPass_unused_some tol g rest poly poly1 htc]; simp [ih]
      | none => rw [scanPass_unused_none tol g rest poly htc]; simp [ih]

/-- Helper: polyline growth equals the number of segments the pass consumed. -/
theorem scanPass_count (tol : ℚ) (segs : List (Segment × Bool)) (poly : List Vec3) :
    (scanPass tol segs poly).2.1.length + unusedCount (scanPass tol segs poly).1 =
      poly.length + unusedCount segs := by
  induction segs generalizing poly with
  | nil => rfl
  | cons gb rest ih =>
    obtain ⟨g, b⟩ := gb
    cases b with
    | true =>
      rw [scanPass_used]
      simp only [unusedCount_cons_true]
      exact ih poly
    | false =>
      cases htc : tryConnect tol poly g with
      | some poly1 =>
        rw [scanPass_unused_some tol g rest poly poly1 htc]
        simp only [unusedCount_cons_true, unusedCount_cons_false]
        have h1 := ih poly1
        have h2 := tryConnect_length tol poly g poly1 htc
        omega
      | none =>
        rw [scanPass_unused_none tol g rest poly htc]
        simp only [unusedCount_cons_false]
        have := ih poly
        omega

/-- Helper: a pass never un-consumes a segment. -/
theorem scanPass_unused_le (tol : ℚ) (segs : List (Segment × Bool)) (poly : List Vec3) :
    unusedCount (scanPass tol segs poly).1 ≤ unusedCount segs := by
  induction segs generalizing poly with
  | nil => exact le_refl _
  | cons gb rest ih =>
    obtain ⟨g, b⟩ := gb
    cases b with
    | true =>
      rw [scanPass_used]
      simp only [unusedCount_cons_true]
      exact ih poly
    | false =>
      cases htc : tryConnect tol poly g with
      | some poly1 =>
        rw [scanPass_unused_some tol g rest poly poly1 htc]
        simp only [unusedCount_cons_true, unusedCount_cons_false]
        have := ih poly1
        omega
      | none =>
        rw [scanPass_unused_none tol g rest poly htc]
        simp only [unusedCount_cons_false]
        have := ih poly
        omega

/-- Helper: a pass reporting no extension leaves everything unchanged. -/
theorem scanPass_ext_false (tol : ℚ) (segs : List (Segment × Bool)) (poly : List Vec3)
    (h : (scanPass tol segs poly).2.2 = false) :
    (scanPass tol segs poly).1 = segs ∧ (scanPass tol segs poly).2.1 = poly := by
  induction segs generalizing poly with
  | nil => exact ⟨rfl, rfl⟩
  | cons gb rest ih =>
    obtain ⟨g, b⟩ := gb
    cases b with
    | true =>
      rw [scanPass_used] at h ⊢
      simp only at h ⊢
      have := ih poly h
      exact ⟨by rw [this.1], this.2⟩
    | false =>
      cases htc : tryConnect tol poly g with
      | some poly1 =>
        rw [scanPass_unused_some tol g rest poly poly1 htc] at h
        simp at h
      | none =>
        rw [scanPass_unused_none tol g rest poly htc] at h ⊢
        simp only at h ⊢
        have := ih poly h
        exact ⟨by rw [this.1], this.2⟩

/-- Helper: a pass reporting an extension consumed at least one segment. -/
theorem scanPass_ext_true (tol : ℚ) (segs : List (Segment × Bool)) (poly : List Vec3)
    (h : (scanPass tol segs poly).2.2 = true) :
    unusedCount (scanPass tol segs poly).1 < unusedCount segs := by
  induction segs generalizing poly with
  | nil => simp [scanPass] at h
  | cons gb rest ih =>
    obtain ⟨g, b⟩ := gb
    cases b with
    | true =>
      rw [scanPass_used] at h ⊢
      simp only at h ⊢
      simp only [unusedCount_cons_true]
      exact ih poly h
    | false =>
      cases htc : tryConnect tol poly g with
      | some poly1 =>
        rw [scanPass_unused_some tol g rest poly poly1 htc]
        simp only [unusedCount_cons_true, unusedCount_cons_false]
        have := scanPass_unused_le tol rest poly1
        omega
      | none =>
        rw [scanPass_unused_none tol g rest poly htc] at h ⊢
        simp only at h ⊢
        simp only [unusedCount_cons_false]
        have := ih poly h
        omega

/-- Helper: a pass never shrinks the polyline. -/
theorem scanPass_poly_le (tol : ℚ) (segs : List (Segment × Bool)) (poly : List Vec3) :
    poly.length ≤ (scanPass tol segs poly).2.1.length := by
  have h1 := scanPass_count tol segs poly
  have h2 := scanPass_unused_le tol segs poly
  omega

/-- Helper: every point after a pass is an old polyline point or an endpoint
of one of the scanned segments (stated with a closure predicate). -/
theorem scanPass_points (tol : ℚ) (E : Vec3 → Prop) (segs : List (Segment × Bool))
    (poly : List Vec3) (hseg : ∀ gb ∈ segs, E gb.1.start ∧ E gb.1.endp)
    (hpoly : ∀ x ∈ poly, E x) :
    ∀ x ∈ (scanPass tol segs poly).2.1, E x := by
  induction segs generalizing poly with
  | nil => exact hpoly
  | cons gb rest ih =>
    obtain ⟨g, b⟩ := gb
    have hrest : ∀ gb ∈ rest, E gb.1.start ∧ E gb.1.endp :=
      fun gb hgb => hseg gb (by simp [hgb])
    cases b with
    | true =>
      rw [scanPass_used]
      exact ih poly hrest hpoly
    | false =>
      cases htc : tryConnect tol poly g with
      | some poly1 =>
        rw [scanPass_unused_some tol g rest poly poly1 htc]
        have hg := hseg (g, false) (by simp)
        have hpoly1 : ∀ x ∈ poly1, E x := by
          intro x hx
          rcases tryConnect_points tol poly g poly1 htc x hx with h | h | h
          · exact hpoly x h
          · rw [h]; exact hg.1
          · rw [h]; exact hg.2
        exact ih poly1 hrest hpoly1
      | none =>
        rw [scanPass_unused_none tol g rest poly htc]
        exact ih poly hrest hpoly

/-- Helper: unfolding equation of the while loop. -/
theorem extendLoop_succ (tol : ℚ) (fuel : Nat) (segs : List (Segment × Bool))
    (poly : List Vec3) :
    extendLoop tol (fuel + 1) segs poly =
      if (scanPass tol segs poly).2.2 then
        extendLoop tol fuel (scanPass tol segs poly).1 (scanPass tol segs poly).2.1
      else ((scanPass tol segs poly).1, (scanPass tol segs poly).2.1) := rfl

/-- Helper: the while loop preserves the underlying segment sequence. -/
theorem extendLoop_map_fst (tol : ℚ) (fuel : Nat) (segs : List (Segment × Bool))
    (poly : List Vec3) :
    (extendLoop tol fuel segs poly).1.map Prod.fst = segs.map Prod.fst := by
  induction fuel generalizing segs poly with
  | zero => rfl
  | succ fuel ih =>
    rw [extendLoop_succ]
    cases hext : (scanPass tol segs poly).2.2 with
    | true =>
      rw [if_pos rfl]
      rw [ih, scanPass_map_fst]
    | false =>
      rw [if_neg (by simp)]
      exact scanPass_map_fst tol segs poly

/-- Helper: polyline growth through the loop equals segments consumed. -/
theorem extendLoop_count (tol : ℚ) (fuel : Nat) (segs : List (Segment × Bool))
    (poly : List Vec3) :
    (extendLoop tol fuel segs poly).2.length +
      unusedCount (extendLoop tol fuel segs poly).1 =
      poly.length + unusedCount segs := by
  induction fuel generalizing segs poly with
  | zero => rfl
  | succ fuel ih =>
    rw [extendLoop_succ]
    cases hext : (scanPass tol segs poly).2.2 with
    | true =>
      rw [if_pos rfl]
      rw [ih]
      exact scanPass_count tol segs poly
    | false =>
      rw [if_neg (by simp)]
      exact scanPass_count tol segs poly

/-- Helper: the while loop never un-consumes a segment. -/
theorem extendLoop_unused_le (tol : ℚ) (fuel : Nat) (segs : List (Segment × Bool))
    (poly : List Vec3) :
    unusedCount (extendLoop tol fuel segs poly).1 ≤ unusedCount segs := by
  induction fuel generalizing segs poly with
  | zero => exact le_refl _
  | succ fuel ih =>
    rw [extendLoop_succ]
    cases hext : (scanPass tol segs poly).2.2 with
    | true =>
      rw [if_pos rfl]
      exact le_trans (ih _ _) (scanPass_unused_le tol segs poly)
    | false =>
      rw [if_neg (by simp)]
      exact scanPass_unused_le tol segs poly

/-- Helper: the while loop never shrinks the polyline. -/
theorem extendLoop_poly_le (tol : ℚ) (fuel : Nat) (segs : List (Segment × Bool))
    (poly : List Vec3) :
    poly.length ≤ (extendLoop tol fuel segs poly).2.length := by
  have h1 := extendLoop_count tol fuel segs poly
  have h2 := extendLoop_unused_le tol fuel segs poly
  omega

/-- Helper: point provenance through the while loop. -/
theorem extendLoop_points (tol : ℚ) (E : Vec3 → Prop) (fuel : Nat)
    (segs : List (Segment × Bool)) (poly : List Vec3)
    (hseg : ∀ gb ∈ segs, E gb.1.start ∧ E gb.1.endp) (hpoly : ∀ x ∈ poly, E x) :
    ∀ x ∈ (extendLoop tol fuel segs poly).2, E x := by
  induction fuel generalizing segs poly with
  | zero => exact hpoly
  | succ fuel ih =>
    rw [extendLoop_succ]
    cases hext : (scanPass tol segs poly).2.2 with
    | true =>
      rw [if_pos rfl]
      refine ih _ _ ?_ (scanPass_points tol E segs poly hseg hpoly)
      intro gb hgb
      have hmem : gb.1 ∈ (scanPass tol segs poly).1.map Prod.fst :=
        List.mem_map_of_mem Prod.fst hgb
      rw [scanPass_map_fst] at hmem
      obtain ⟨gb', hgb', heq⟩ := List.mem_map.mp hmem
      have := hseg gb' hgb'
      rw [heq] at this
      exact this
    | false =>
      rw [if_neg (by simp)]
      exact scanPass_points tol E segs poly hseg hpoly

/-- Helper: the while loop's result does not depend on the fuel once the fuel
exceeds the number of unused segments — this is the termination argument:
every pass either consumes a segment or is the last. -/
theorem extendLoop_stable (tol : ℚ) : ∀ (n : Nat) (segs : List (Segment × Bool))
    (poly : List Vec3) (m : Nat), unusedCount segs < n → unusedCount segs < m →
    extendLoop tol n segs poly = extendLoop tol m segs poly := by
  intro n
  induction n with
  | zero => intro segs poly m hn; omega
  | succ n ih =>
    intro segs poly m hn hm
    cases m with
    | zero => omega
    | succ m =>
      rw [extendLoop_succ, extendLoop_succ]
      cases hext : (scanPass tol segs poly).2.2 with
      | true =>
        rw [if_pos rfl, if_pos rfl]
        have hlt := scanPass_ext_true tol segs poly hext
        exact ih _ _ m (by omega) (by omega)
      | false =>
        rw [if_neg (by simp), if_neg (by simp)]

/-- Helper: a closure predicate transfers along equal segment sequences. -/
theorem endpoint_pred_of_map_fst_eq (E : Vec3 → Prop)
    {segs segs' : List (Segment × Bool)}
    (h : segs'.map Prod.fst = segs.map Prod.fst)
    (hseg : ∀ gb ∈ segs, E gb.1.start ∧ E gb.1.endp) :
    ∀ gb ∈ segs', E gb.1.start ∧ E gb.1.endp := by
  intro gb hgb
  have hmem : gb.1 ∈ segs'.map Prod.fst := List.mem_map_of_mem Prod.fst hgb
  rw [h] at hmem
  obtain ⟨gb', hgb', heq⟩ := List.mem_map.mp hmem
  have := hseg gb' hgb'
  rw [heq] at this
  exact this

/-- Helper: unfolding equation of findSeed on a used head cell. -/
theorem findSeed_cons_true (g : Segment) (rest : List (Segment × Bool)) :
    findSeed ((g, true) :: rest) =
      match findSeed rest with
      | some (s, rest1) => some (s, (g, true) :: rest1)
      | none => none := rfl

/-- Helper: unfolding equation of findSeed on an unused head cell. -/
theorem findSeed_cons_false (g : Segment) (rest : List (Segment × Bool)) :
    findSeed ((g, false) :: rest) = some (g, (g, true) :: rest) := rfl

/-- Helper: findSeed fails exactly when every segment is used. -/
theorem findSeed_none_iff (segs : List (Segment × Bool)) :
    findSeed segs = none ↔ unusedCount segs = 0 := by
  induction segs with
  | nil => simp [findSeed, unusedCount]
  | cons gb rest ih =>
    obtain ⟨g, b⟩ := gb
    cases b with
    | true =>
      rw [unusedCount_cons_true, ← ih, findSeed_cons_true]
      cases hfs : findSeed rest with
      | none => simp
      | some gr =>
        obtain ⟨s, rest1⟩ := gr
        simp
    | false =>
      rw [unusedCount_cons_false, findSeed_cons_false]
      simp

/-- Helper: a successful seed search preserves the segment sequence, consumes
exactly one unused segment, and that seed occurs unused in the array. -/
theorem findSeed_some (segs : List (Segment × Bool)) (g : Segment)
    (segs1 : List (Segment × Bool)) (h : findSeed segs = some (g, segs1)) :
    segs1.map Prod.fst = segs.map Prod.fst ∧
    unusedCount segs = unusedCount segs1 + 1 ∧
    (g, false) ∈ segs ∧
    unusedEdges segs = Sym2.mk (g.start, g.endp) ::ₘ unusedEdges segs1 := by
  induction segs generalizing segs1 with
  | nil => exact absurd h (by simp [findSeed])
  | cons gb rest ih =>
    obtain ⟨g0, b⟩ := gb
    cases b with
    | true =>
      unfold findSeed at h
      cases hfs : findSeed rest with
      | none => rw [hfs] at h; exact absurd h (by simp)
      | some gr =>
        obtain ⟨g', rest1⟩ := gr
        rw [hfs] at h
        simp only [Option.some.injEq, Prod.mk.injEq] at h
        obtain ⟨hg, hsegs1⟩ := h
        subst hg
        subst hsegs1
        obtain ⟨h1, h2, h3, h4⟩ := ih rest1 hfs
        refine ⟨by simp [h1], ?_, by simp [h3], ?_⟩
        · rw [unusedCount_cons_true, unusedCount_cons_true, h2]
        · unfold unusedEdges at h4 ⊢
          simpa [List.filter_cons] using h4
    | false =>
      unfold findSeed at h
      simp only [Option.some.injEq, Prod.mk.injEq] at h
      obtain ⟨hg, hsegs1⟩ := h
      subst hg
      subst hsegs1
      refine ⟨by simp, ?_, by simp, ?_⟩
      · rw [unusedCount_cons_false, unusedCount_cons_true]
      · unfold unusedEdges
        simp [List.filter_cons]

/-- Helper: unfolding equation of the outer loop. -/
theorem stitchAll_succ (tol : ℚ) (fuel : Nat) (segs : List (Segment × Bool)) :
    stitchAll tol (fuel + 1) segs =
      match findSeed segs with
      | none => []
      | some (g, segs1) =>
        (extendLoop tol (segs1.length + 1) segs1 [g.start, g.endp]).2 ::
          stitchAll tol fuel (extendLoop tol (segs1.length + 1) segs1
            [g.start, g.endp]).1 := rfl

/-- Helper: at most one polyline per fuel unit. -/
theorem stitchAll_length_le (tol : ℚ) (fuel : Nat) (segs : List (Segment × Bool)) :
    (stitchAll tol fuel segs).length ≤ fuel := by
  induction fuel generalizing segs with
  | zero => exact le_refl _
  | succ fuel ih =>
    rw [stitchAll_succ]
    cases hfs : findSeed segs with
    | none => simp
    | some gr =>
      obtain ⟨g, segs1⟩ := gr
      simp only [List.length_cons]
      exact Nat.succ_le_succ (ih _)

/-- Helper: with enough fuel, the emitted polylines consume exactly the
unused segments: the total number of consecutive point pairs equals the
number of unused segments. -/
theorem stitchAll_sum (tol : ℚ) (fuel : Nat) (segs : List (Segment × Bool))
    (hfuel : unusedCount segs ≤ fuel) :
    ((stitchAll tol fuel segs).map fun p => p.length - 1).sum = unusedCount segs := by
  induction fuel generalizing segs with
  | zero =>
    have : unusedCount segs = 0 := by omega
    rw [this]
    rfl
  | succ fuel ih =>
    rw [stitchAll_succ]
    cases hfs : findSeed segs with
    | none =>
      rw [(findSeed_none_iff segs).mp hfs]
      rfl
    | some gr =>
      obtain ⟨g, segs1⟩ := gr
      obtain ⟨h1, h2, h3, h4⟩ := findSeed_some segs g segs1 hfs
      have hcount := extendLoop_count tol (segs1.length + 1) segs1 [g.start, g.endp]
      have hple := extendLoop_poly_le tol (segs1.length + 1) segs1 [g.start, g.endp]
      have hule := extendLoop_unused_le tol (segs1.length + 1) segs1 [g.start, g.endp]
      have hih := ih (extendLoop tol (segs1.length + 1) segs1 [g.start, g.endp]).1
        (by omega)
      simp only [List.map_cons, List.sum_cons, hih]
      simp only [List.length_cons, List.length_nil] at hcount hple
      omega

/-- Helper: every emitted polyline has at least two points. -/
theorem stitchAll_two_le (tol : ℚ) (fuel : Nat) (segs : List (Segment × Bool)) :
    ∀ p ∈ stitchAll tol fuel segs, 2 ≤ p.length := by
  induction fuel generalizing segs with
  | zero => intro p hp; exact absurd hp (by simp [stitchAll])
  | succ fuel ih =>
    rw [stitchAll_succ]
    cases hfs : findSeed segs with
    | none => intro p hp; exact absurd hp (by simp)
    | some gr =>
      obtain ⟨g, segs1⟩ := gr
      intro p hp
      rcases List.mem_cons.mp hp with h | h
      · have hple := extendLoop_poly_le tol (segs1.length + 1) segs1 [g.start, g.endp]
        simp only [List.length_cons, List.length_nil] at hple
        rw [h]
        omega
      · exact ih _ p h

/-- Helper: every point of every emitted polyline satisfies the closure
predicate of the segment endpoints. -/
theorem stitchAll_points (tol : ℚ) (E : Vec3 → Prop) (fuel : Nat)
    (segs : List (Segment × Bool))
    (hseg : ∀ gb ∈ segs, E gb.1.start ∧ E gb.1.endp) :
    ∀ p ∈ stitchAll tol fuel segs, ∀ x ∈ p, E x := by
  induction fuel generalizing segs with
  | zero => intro p hp; exact absurd hp (by simp [stitchAll])
  | succ fuel ih =>
    rw [stitchAll_succ]
    cases hfs : findSeed segs with
    | none => intro p hp; exact absurd hp (by simp)
    | some gr =>
      obtain ⟨g, segs1⟩ := gr
      obtain ⟨h1, h2, h3, h4⟩ := findSeed_some segs g segs1 hfs
      have hseg1 : ∀ gb ∈ segs1, E gb.1.start ∧ E gb.1.endp :=
        endpoint_pred_of_map_fst_eq E h1 hseg
      have hg : E g.start ∧ E g.endp := hseg (g, false) h3
      intro p hp
      rcases List.mem_cons.mp hp with h | h
      · rw [h]
        refine extendLoop_points tol E _ segs1 [g.start, g.endp] hseg1 ?_
        intro x hx
        rcases List.mem_cons.mp hx with h' | h'
        · rw [h']; exact hg.1
        · simp only [List.mem_singleton] at h'
          rw [h']; exact hg.2
      · refine ih _ ?_ p h
        exact endpoint_pred_of_map_fst_eq E
          (extendLoop_map_fst tol (segs1.length + 1) segs1 [g.start, g.endp]) hseg1

/-- Helper: a freshly flagged array is fully unused. -/
theorem unusedCount_map_false (l : List Segment) :
    unusedCount (l.map fun g => (g, false)) = l.length := by
  induction l with
  | nil => rfl
  | cons g rest ih =>
    simp only [List.map_cons, unusedCount_cons_false, List.length_cons, ih]

/-- C9: stitchSegments terminates on every finite input: each scan pass
either consumes (marks used) at least one previously-unused segment or sets
no extension flag — in which case it changes nothing and ends the current
polyline; consequently the while loop's result is independent of its pass
budget once it exceeds the number of unused segments (the loop reaches its
fixpoint); and the outer loop seeds at most one polyline per input segment. -/
theorem stitchSegments_terminates (tol : ℚ) :
    (∀ (segs : List (Segment × Bool)) (poly : List Vec3),
      ((scanPass tol segs poly).2.2 = true →
        unusedCount (scanPass tol segs poly).1 < unusedCount segs) ∧
      ((scanPass tol segs poly).2.2 = false →
        (scanPass tol segs poly).1 = segs ∧ (scanPass tol segs poly).2.1 = poly)) ∧
    (∀ (n m : Nat) (segs : List (Segment × Bool)) (poly : List Vec3),
      unusedCount segs < n → unusedCount segs < m →
      extendLoop tol n segs poly = extendLoop tol m segs poly) ∧
    (∀ l : List Segment, (stitchSegments l tol).length ≤ l.length) := by
  refine ⟨fun segs poly =>
    ⟨scanPass_ext_true tol segs poly, scanPass_ext_false tol segs poly⟩,
    fun n m segs poly hn hm => extendLoop_stable tol n segs poly m hn hm, ?_⟩
  intro l
  unfold stitchSegments
  have h := stitchAll_length_le tol l.length (l.map fun g => (g, false))
  exact h

/-- Witness for C9: the loop at a concrete one-segment input computes the
same result with pass budget 2 and 3. -/
theorem stitchSegments_terminates_witness :
    unusedCount [((⟨⟨0, 0, 0⟩, ⟨1, 0, 0⟩⟩ : Segment), false)] < 2 ∧
    unusedCount [((⟨⟨0, 0, 0⟩, ⟨1, 0, 0⟩⟩ : Segment), false)] < 3 ∧
    extendLoop 1 2 [((⟨⟨0, 0, 0⟩, ⟨1, 0, 0⟩⟩ : Segment), false)] [⟨5, 5, 5⟩] =
      extendLoop 1 3 [((⟨⟨0, 0, 0⟩, ⟨1, 0, 0⟩⟩ : Segment), false)] [⟨5, 5, 5⟩] := by
  have h2 : unusedCount [((⟨⟨0, 0, 0⟩, ⟨1, 0, 0⟩⟩ : Segment), false)] < 2 := by
    norm_num [unusedCount, List.filter]
  have h3 : unusedCount [((⟨⟨0, 0, 0⟩, ⟨1, 0, 0⟩⟩ : Segment), false)] < 3 := by
    norm_num [unusedCount, List.filter]
  exact ⟨h2, h3, (stitchSegments_terminates 1).2.1 2 3 _ _ h2 h3⟩

/-- C10: stitchSegments conserves its input. Every input segment is consumed
into the output: the total number of consecutive point pairs across all
output polylines (each polyline of k+1 points contributing k) equals the
number of input segments; every polyline has at least 2 points (a seed plus
its extensions); and every output point is a copy of some input segment
endpoint. -/
theorem stitchSegments_conservation (l : List Segment) (tol : ℚ) :
    ((stitchSegments l tol).map fun p => p.length - 1).sum = l.length ∧
    (∀ p ∈ stitchSegments l tol, 2 ≤ p.length) ∧
    (∀ p ∈ stitchSegments l tol, ∀ x ∈ p, ∃ g ∈ l, x = g.start ∨ x = g.endp) := by
  have hmap := unusedCount_map_false l
  refine ⟨?_, ?_, ?_⟩
  · unfold stitchSegments
    rw [stitchAll_sum tol l.length _ (by rw [hmap]), hmap]
  · unfold stitchSegments
    exact stitchAll_two_le tol l.length _
  · unfold stitchSegments
    refine stitchAll_points tol (fun x => ∃ g ∈ l, x = g.start ∨ x = g.endp)
      l.length _ ?_
    intro gb hgb
    obtain ⟨g, hg, heq⟩ := List.mem_map.mp hgb
    subst heq
    exact ⟨⟨g, hg, Or.inl rfl⟩, ⟨g, hg, Or.inr rfl⟩⟩

/-- Helper: base equations of the stitching functions. -/
theorem findSeed_nil : findSeed [] = none := rfl

/-- Helper: scanPass on the empty array. -/
theorem scanPass_nil (tol : ℚ) (poly : List Vec3) :
    scanPass tol [] poly = ([], poly, false) := rfl

/-- Helper: stitchAll with no fuel. -/
theorem stitchAll_zero (tol : ℚ) (segs : List (Segment × Bool)) :
    stitchAll tol 0 segs = [] := rfl

/-- Helper: extendLoop with no fuel. -/
theorem extendLoop_zero (tol : ℚ) (segs : List (Segment × Bool)) (poly : List Vec3) :
    extendLoop tol 0 segs poly = (segs, poly) := rfl

/-- Helper: the value reported by getLast? is a member of the list. -/
theorem mem_of_getLast?_eq : ∀ (l : List Vec3) (a : Vec3),
    l.getLast? = some a → a ∈ l
  | [], a, h => by simp at h
  | [x], a, h => by
    simp only [List.getLast?_singleton, Option.some.injEq] at h
    simp [h]
  | x :: y :: rest, a, h => by
    rw [List.getLast?_cons_cons] at h
    exact List.mem_cons_of_mem x (mem_of_getLast?_eq (y :: rest) a h)

/-- Helper: the value reported by head? is a member of the list. -/
theorem mem_of_head?_eq (l : List Vec3) (a : Vec3) (h : l.head? = some a) : a ∈ l := by
  cases l with
  | nil => simp at h
  | cons x rest =>
    simp only [List.head?_cons, Option.some.injEq] at h
    simp [h]

/-- Helper: consecutive pairs of an append of one point. -/
theorem chainPairs_append (x : Vec3) : ∀ (poly : List Vec3) (lastP : Vec3),
    poly.getLast? = some lastP →
    chainPairs (poly ++ [x]) = chainPairs poly ++ [Sym2.mk (lastP, x)]
  | [], lastP, h => by simp at h
  | [a], lastP, h => by
    simp only [List.getLast?_singleton, Option.some.injEq] at h
    subst h
    rfl
  | a :: b :: rest, lastP, h => by
    rw [List.getLast?_cons_cons] at h
    have ih := chainPairs_append x (b :: rest) lastP h
    show Sym2.mk (a, b) :: chainPairs ((b :: rest) ++ [x]) = _
    rw [ih]
    rfl

/-- Helper: consecutive pairs after prepending one point. -/
theorem chainPairs_cons (y : Vec3) (poly : List Vec3) (headP : Vec3)
    (h : poly.head? = some headP) :
    chainPairs (y :: poly) = Sym2.mk (y, headP) :: chainPairs poly := by
  cases poly with
  | nil => simp at h
  | cons a rest =>
    simp only [List.head?_cons, Option.some.injEq] at h
    subst h
    rfl

/-- Helper: under exact endpoint matching, a successful connection adds
exactly the consumed segment's unordered endpoint pair to the polyline's
consecutive pairs. -/
theorem tryConnect_chainPairs (tol : ℚ) (poly : List Vec3) (g : Segment)
    (poly1 : List Vec3) (h : tryConnect tol poly g = some poly1)
    (hex : ∀ u ∈ poly, ∀ v, (v = g.start ∨ v = g.endp) → samePoint tol u v → u = v) :
    chainPairsM poly1 = Sym2.mk (g.start, g.endp) ::ₘ chainPairsM poly := by
  unfold tryConnect at h
  rcases hl : poly.getLast? with _ | lastP <;> rcases hh : poly.head? with _ | headP <;>
    rw [hl, hh] at h
  · exact absurd h (by simp)
  · exact absurd h (by simp)
  · exact absurd h (by simp)
  · dsimp only at h
    have hlmem : lastP ∈ poly := mem_of_getLast?_eq poly lastP hl
    have hhmem : headP ∈ poly := mem_of_head?_eq poly headP hh
    split_ifs at h with h1 h2 h3 h4 <;> injection h with hpoly1 <;> subst hpoly1
    · have heq : lastP = g.start := hex lastP hlmem g.start (Or.inl rfl) h1
      unfold chainPairsM
      rw [chainPairs_append g.endp poly lastP hl, heq]
      simp [Multiset.singleton_add]
    · have heq : lastP = g.endp := hex lastP hlmem g.endp (Or.inr rfl) h2
      unfold chainPairsM
      rw [chainPairs_append g.start poly lastP hl, heq, Sym2.eq_swap]
      simp [Multiset.singleton_add]
    · have heq : headP = g.endp := hex headP hhmem g.endp (Or.inr rfl) h3
      unfold chainPairsM
      rw [chainPairs_cons g.start poly headP hh, heq]
      rfl
    · have heq : headP = g.start := hex headP hhmem g.start (Or.inl rfl) h4
      unfold chainPairsM
      rw [chainPairs_cons g.endp poly headP hh, heq, Sym2.eq_swap]
      rfl

/-- Helper: unusedEdges ignores a used head cell. -/
theorem unusedEdges_cons_true (g : Segment) (rest : List (Segment × Bool)) :
    unusedEdges ((g, true) :: rest) = unusedEdges rest := by
  unfold unusedEdges
  simp [List.filter_cons]

/-- Helper: unusedEdges counts an unused head cell. -/
theorem unusedEdges_cons_false (g : Segment) (rest : List (Segment × Bool)) :
    unusedEdges ((g, false) :: rest) =
      Sym2.mk (g.start, g.endp) ::ₘ unusedEdges rest := by
  unfold unusedEdges
  simp [List.filter_cons]

/-- Helper: under exact endpoint matching, one scan pass moves the unordered
endpoint pairs of the segments it consumes from the unused pool into the
polyline's consecutive pairs, preserving the combined multiset. -/
theorem scanPass_edges (tol : ℚ) (E : Vec3 → Prop)
    (hex : ∀ u v, E u → E v → samePoint tol u v → u = v) :
    ∀ (segs : List (Segment × Bool)) (poly : List Vec3),
    (∀ gb ∈ segs, E gb.1.start ∧ E gb.1.endp) → (∀ x ∈ poly, E x) →
    chainPairsM (scanPass tol segs poly).2.1 +
      unusedEdges (scanPass tol segs poly).1 =
      chainPairsM poly + unusedEdges segs := by
  intro segs
  induction segs with
  | nil => intro poly _ _; rfl
  | cons gb rest ih =>
    intro poly hseg hpoly
    obtain ⟨g, b⟩ := gb
    have hrest : ∀ gb ∈ rest, E gb.1.start ∧ E gb.1.endp :=
      fun gb hgb => hseg gb (by simp [hgb])
    cases b with
    | true =>
      rw [scanPass_used]
      simp only [unusedEdges_cons_true]
      exact ih poly hrest hpoly
    | false =>
      have hg := hseg (g, false) (by simp)
      cases htc : tryConnect tol poly g with
      | some poly1 =>
        rw [scanPass_unused_some tol g rest poly poly1 htc]
        simp only [unusedEdges_cons_true, unusedEdges_cons_false]
        have hpoly1 : ∀ x ∈ poly1, E x := by
          intro x hx
          rcases tryConnect_points tol poly g poly1 htc x hx with h | h | h
          · exact hpoly x h
          · rw [h]; exact hg.1
          · rw [h]; exact hg.2
        have hcp : chainPairsM poly1 = Sym2.mk (g.start, g.endp) ::ₘ chainPairsM poly := by
          refine tryConnect_chainPairs tol poly g poly1 htc ?_
          intro u hu v hv huv
          refine hex u v (hpoly u hu) ?_ huv
          rcases hv with h | h
          · rw [h]; exact hg.1
          · rw [h]; exact hg.2
        rw [ih poly1 hrest hpoly1, hcp]
        simp only [← Multiset.singleton_add]
        abel
      | none =>
        rw [scanPass_unused_none tol g rest poly htc]
        simp only [unusedEdges_cons_false, ← Multiset.singleton_add]
        rw [add_left_comm, ih poly hrest hpoly, add_left_comm]

/-- Helper: the edge-conservation invariant holds through the while loop. -/
theorem extendLoop_edges (tol : ℚ) (E : Vec3 → Prop)
    (hex : ∀ u v, E u → E v → samePoint tol u v → u = v) :
    ∀ (fuel : Nat) (segs : List (Segment × Bool)) (poly : List Vec3),
    (∀ gb ∈ segs, E gb.1.start ∧ E gb.1.endp) → (∀ x ∈ poly, E x) →
    chainPairsM (extendLoop tol fuel segs poly).2 +
      unusedEdges (extendLoop tol fuel segs poly).1 =
      chainPairsM poly + unusedEdges segs := by
  intro fuel
  induction fuel with
  | zero => intro segs poly _ _; rfl
  | succ fuel ih =>
    intro segs poly hseg hpoly
    rw [extendLoop_succ]
    cases hext : (scanPass tol segs poly).2.2 with
    | true =>
      rw [if_pos rfl]
      have hseg' : ∀ gb ∈ (scanPass tol segs poly).1, E gb.1.start ∧ E gb.1.endp :=
        endpoint_pred_of_map_fst_eq E (scanPass_map_fst tol segs poly) hseg
      have hpoly' := scanPass_points tol E segs poly hseg hpoly
      rw [ih _ _ hseg' hpoly']
      exact scanPass_edges tol E hex segs poly hseg hpoly
    | false =>
      rw [if_neg (by simp)]
      exact scanPass_edges tol E hex segs poly hseg hpoly

/-- Helper: an all-used array holds no unused edges. -/
theorem unusedEdges_of_unusedCount_zero (segs : List (Segment × Bool))
    (h : unusedCount segs = 0) : unusedEdges segs = 0 := by
  unfold unusedEdges
  unfold unusedCount at h
  rw [List.length_eq_zero] at h
  rw [h]
  rfl

/-- Helper: with enough fuel, the emitted polylines' consecutive pairs are
exactly the unused segments' unordered endpoint pairs. -/
theorem stitchAll_edges (tol : ℚ) (E : Vec3 → Prop)
    (hex : ∀ u v, E u → E v → samePoint tol u v → u = v) :
    ∀ (fuel : Nat) (segs : List (Segment × Bool)),
    (∀ gb ∈ segs, E gb.1.start ∧ E gb.1.endp) → unusedCount segs ≤ fuel →
    outEdges (stitchAll tol fuel segs) = unusedEdges segs := by
  intro fuel
  induction fuel with
  | zero =>
    intro segs _ hfuel
    rw [stitchAll_zero, unusedEdges_of_unusedCount_zero segs (by omega)]
    rfl
  | succ fuel ih =>
    intro segs hseg hfuel
    rw [stitchAll_succ]
    cases hfs : findSeed segs with
    | none =>
      rw [unusedEdges_of_unusedCount_zero segs ((findSeed_none_iff segs).mp hfs)]
      rfl
    | some gr =>
      obtain ⟨g, segs1⟩ := gr
      obtain ⟨h1, h2, h3, h4⟩ := findSeed_some segs g segs1 hfs
      have hg : E g.start ∧ E g.endp := hseg (g, false) h3
      have hseg1 : ∀ gb ∈ segs1, E gb.1.start ∧ E gb.1.endp :=
        endpoint_pred_of_map_fst_eq E h1 hseg
      have hpoly0 : ∀ x ∈ [g.start, g.endp], E x := by
        intro x hx
        rcases List.mem_cons.mp hx with h | h
        · rw [h]; exact hg.1
        · simp only [List.mem_singleton] at h
          rw [h]; exact hg.2
      have hel := extendLoop_edges tol E hex (segs1.length + 1) segs1
        [g.start, g.endp] hseg1 hpoly0
      have hule := extendLoop_unused_le tol (segs1.length + 1) segs1 [g.start, g.endp]
      have hih := ih (extendLoop tol (segs1.length + 1) segs1 [g.start, g.endp]).1
        (endpoint_pred_of_map_fst_eq E
          (extendLoop_map_fst tol (segs1.length + 1) segs1 [g.start, g.endp]) hseg1)
        (by omega)
      show outEdges (_ :: _) = _
      unfold outEdges at hih ⊢
      simp only [List.map_cons, List.sum_cons]
      rw [hih]
      rw [hel, h4]
      have hcp0 : chainPairsM [g.start, g.endp] =
          (Sym2.mk (g.start, g.endp) ::ₘ 0) := rfl
      rw [hcp0]
      simp [Multiset.singleton_add]

/-- Helper: membership in the endpoint list. -/
theorem endpointsOf_iff (l : List Segment) (x : Vec3) :
    x ∈ endpointsOf l ↔ ∃ g ∈ l, x = g.start ∨ x = g.endp := by
  induction l with
  | nil => simp [endpointsOf]
  | cons g rest ih =>
    unfold endpointsOf
    simp only [List.mem_cons, ih]
    constructor
    · rintro (h | h | ⟨g', hg', h'⟩)
      · exact ⟨g, Or.inl rfl, Or.inl h⟩
      · exact ⟨g, Or.inl rfl, Or.inr h⟩
      · exact ⟨g', Or.inr hg', h'⟩
    · rintro ⟨g', hg' | hg', h'⟩
      · subst hg'
        rcases h' with h | h
        · exact Or.inl h
        · exact Or.inr (Or.inl h)
      · exact Or.inr (Or.inr ⟨g', hg', h'⟩)

/-- Helper: a segment's endpoints are in the endpoint list. -/
theorem mem_endpointsOf (l : List Segment) (g : Segment) (hg : g ∈ l) :
    g.start ∈ endpointsOf l ∧ g.endp ∈ endpointsOf l :=
  ⟨(endpointsOf_iff l g.start).mpr ⟨g, hg, Or.inl rfl⟩,
    (endpointsOf_iff l g.endp).mpr ⟨g, hg, Or.inr rfl⟩⟩

/-- Helper: the unused pool of a freshly flagged array is the whole input. -/
theorem unusedEdges_map_false (l : List Segment) :
    unusedEdges (l.map fun g => (g, false)) = segEdges l := by
  induction l with
  | nil => rfl
  | cons g rest ih =>
    simp only [List.map_cons, unusedEdges_cons_false, ih]
    unfold segEdges
    simp

/-- Helper: under exact endpoint matching, the multiset of consecutive point
pairs across all stitched polylines equals the input segment multiset. -/
theorem stitchSegments_edges (l : List Segment) (tol : ℚ)
    (hex : exactEndpoints l tol) :
    outEdges (stitchSegments l tol) = segEdges l := by
  unfold stitchSegments
  rw [← unusedEdges_map_false l]
  refine stitchAll_edges tol (fun x => x ∈ endpointsOf l)
    (fun u v hu hv huv => hex u hu v hv huv) l.length _ ?_ ?_
  · intro gb hgb
    obtain ⟨g, hg, heq⟩ := List.mem_map.mp hgb
    subst heq
    exact mem_endpointsOf l g hg
  · rw [unusedCount_map_false]

/-- C1 counterexample: two segments whose endpoints are within the default
`1e-6` tolerance but not equal. In one input order the seed's polyline ends
at `(1,0,0)` and absorbs the second segment there; in the swapped order the
polyline ends at `(1, 5e-7, 0)` and absorbs the first segment there. The two
orders produce polylines that are neither equal nor reverses of each other,
refuting permutation invariance of `stitchSegments` up to reversal. -/
theorem stitchSegments_not_perm_invariant :
    ([(⟨⟨1, 0, 1 / 2000000⟩, ⟨1, 1 / 2000000, 0⟩⟩ : Segment),
      ⟨⟨0, 0, 0⟩, ⟨1, 0, 0⟩⟩]).Perm
      [⟨⟨0, 0, 0⟩, ⟨1, 0, 0⟩⟩, ⟨⟨1, 0, 1 / 2000000⟩, ⟨1, 1 / 2000000, 0⟩⟩] ∧
    stitchSegments
      [⟨⟨0, 0, 0⟩, ⟨1, 0, 0⟩⟩, ⟨⟨1, 0, 1 / 2000000⟩, ⟨1, 1 / 2000000, 0⟩⟩]
      (1 / 1000000) = [[⟨0, 0, 0⟩, ⟨1, 0, 0⟩, ⟨1, 1 / 2000000, 0⟩]] ∧
    stitchSegments
      [⟨⟨1, 0, 1 / 2000000⟩, ⟨1, 1 / 2000000, 0⟩⟩, ⟨⟨0, 0, 0⟩, ⟨1, 0, 0⟩⟩]
      (1 / 1000000) = [[⟨1, 0, 1 / 2000000⟩, ⟨1, 1 / 2000000, 0⟩, ⟨0, 0, 0⟩]] ∧
    ¬ sameSetUpToRev
      (stitchSegments
        [⟨⟨0, 0, 0⟩, ⟨1, 0, 0⟩⟩, ⟨⟨1, 0, 1 / 2000000⟩, ⟨1, 1 / 2000000, 0⟩⟩]
        (1 / 1000000))
      (stitchSegments
        [⟨⟨1, 0, 1 / 2000000⟩, ⟨1, 1 / 2000000, 0⟩⟩, ⟨⟨0, 0, 0⟩, ⟨1, 0, 0⟩⟩]
        (1 / 1000000)) := by
  have e1 : stitchSegments
      [⟨⟨0, 0, 0⟩, ⟨1, 0, 0⟩⟩, ⟨⟨1, 0, 1 / 2000000⟩, ⟨1, 1 / 2000000, 0⟩⟩]
      (1 / 1000000) = [[⟨0, 0, 0⟩, ⟨1, 0, 0⟩, ⟨1, 1 / 2000000, 0⟩]] := by
    norm_num [stitchSegments, stitchAll_succ, stitchAll_zero, findSeed_cons_false,
      findSeed_cons_true, findSeed_nil, extendLoop_succ, extendLoop_zero,
      scanPass_used, scanPass_unused_eq, scanPass_nil, tryConnect, samePoint, dist2]
  have e2 : stitchSegments
      [⟨⟨1, 0, 1 / 2000000⟩, ⟨1, 1 / 2000000, 0⟩⟩, ⟨⟨0, 0, 0⟩, ⟨1, 0, 0⟩⟩]
      (1 / 1000000) = [[⟨1, 0, 1 / 2000000⟩, ⟨1, 1 / 2000000, 0⟩, ⟨0, 0, 0⟩]] := by
    norm_num [stitchSegments, stitchAll_succ, stitchAll_zero, findSeed_cons_false,
      findSeed_cons_true, findSeed_nil, extendLoop_succ, extendLoop_zero,
      scanPass_used, scanPass_unused_eq, scanPass_nil, tryConnect, samePoint, dist2]
  refine ⟨List.Perm.swap _ _ _, e1, e2, ?_⟩
  rw [e1, e2]
  intro hcon
  obtain ⟨h1, _⟩ := hcon
  obtain ⟨qq, hqq, heq⟩ := h1 [⟨0, 0, 0⟩, ⟨1, 0, 0⟩, ⟨1, 1 / 2000000, 0⟩] (by simp)
  simp only [List.mem_singleton] at hqq
  subst hqq
  rcases heq with h | h <;> norm_num [Vec3.mk.injEq] at h

/-- C1 amended: full polyline-level permutation invariance up to reversal
fails near the tolerance (see the counterexample), but for inputs whose
endpoint coincidences are exact — any two endpoints within the tolerance are
equal — the multiset of unordered consecutive point pairs of the stitched
polylines is exactly the input segment multiset, hence identical for every
permutation of the input. -/
theorem stitchSegments_perm_edge_invariant (tol : ℚ) (l l' : List Segment)
    (hex : exactEndpoints l tol) (hperm : l'.Perm l) :
    outEdges (stitchSegments l' tol) = outEdges (stitchSegments l tol) ∧
    outEdges (stitchSegments l tol) = segEdges l := by
  have hsub : ∀ x ∈ endpointsOf l', x ∈ endpointsOf l := by
    intro x hx
    rw [endpointsOf_iff] at hx ⊢
    obtain ⟨g, hg, h⟩ := hx
    exact ⟨g, hperm.subset hg, h⟩
  have hex' : exactEndpoints l' tol := by
    intro u hu v hv huv
    exact hex u (hsub u hu) v (hsub v hv) huv
  have h2 := stitchSegments_edges l tol hex
  refine ⟨?_, h2⟩
  rw [stitchSegments_edges l' tol hex', h2]
  unfold segEdges
  exact Multiset.coe_eq_coe.mpr (hperm.map _)

/-- Witness for the amended C1 theorem on a two-segment input with exactly
matching endpoints, at tolerance 1. -/
theorem stitchSegments_perm_edge_invariant_witness :
    exactEndpoints [(⟨⟨0, 0, 0⟩, ⟨1, 0, 0⟩⟩ : Segment), ⟨⟨1, 0, 0⟩, ⟨2, 0, 0⟩⟩] 1 ∧
    ([(⟨⟨1, 0, 0⟩, ⟨2, 0, 0⟩⟩ : Segment), ⟨⟨0, 0, 0⟩, ⟨1, 0, 0⟩⟩]).Perm
      [⟨⟨0, 0, 0⟩, ⟨1, 0, 0⟩⟩, ⟨⟨1, 0, 0⟩, ⟨2, 0, 0⟩⟩] ∧
    outEdges (stitchSegments
        [(⟨⟨1, 0, 0⟩, ⟨2, 0, 0⟩⟩ : Segment), ⟨⟨0, 0, 0⟩, ⟨1, 0, 0⟩⟩] 1) =
      outEdges (stitchSegments
        [(⟨⟨0, 0, 0⟩, ⟨1, 0, 0⟩⟩ : Segment), ⟨⟨1, 0, 0⟩, ⟨2, 0, 0⟩⟩] 1) := by
  have hex : exactEndpoints
      [(⟨⟨0, 0, 0⟩, ⟨1, 0, 0⟩⟩ : Segment), ⟨⟨1, 0, 0⟩, ⟨2, 0, 0⟩⟩] 1 := by
    intro u hu v hv huv
    simp only [endpointsOf, List.mem_cons, List.not_mem_nil, or_false] at hu hv
    unfold samePoint dist2 at huv
    rcases hu with h | h | h | h <;> rcases hv with h' | h' | h' | h' <;>
      subst h <;> subst h' <;> first
      | rfl
      | (exfalso; norm_num at huv)
  exact ⟨hex, List.Perm.swap _ _ _,
    (stitchSegments_perm_edge_invariant 1 _ _ hex (List.Perm.swap _ _ _)).1⟩
